import Mathlib

/-!
Verification of the asset-manifest construction and route-import optimizer of
`packages/remix-dev/compiler/manifest.ts`.

The TypeScript source is shallowly embedded: JavaScript objects used as
string-keyed maps become association lists (`List (String × _)`), in-place
mutation becomes explicit state passing, the unbounded recursion of
`optimizeRouteImports` is driven by a fuel parameter (`none` models
non-termination), and a thrown exception becomes an `Except.error` value.
JavaScript truthiness tests on optional strings and the truthiness of arrays
(every array, including the empty one, is truthy) are modelled explicitly.
-/

namespace Remix

/-- A manifest entry for one route, mirroring the object literal built in
`create` (manifest.ts lines 76-88). `imports = none` models the field being
`undefined`. -/
structure RouteManifestEntry where
  id : String
  parentId : Option String
  path : Option String
  index : Option Bool
  caseSensitive : Option Bool
  module : String
  imports : Option (List String)
  hasAction : Bool
  hasLoader : Bool
  hasCatchBoundary : Bool
  hasErrorBoundary : Bool
deriving DecidableEq, Inhabited

/-- The `Manifest["routes"]` object: route id keyed entries, in property
insertion order. -/
abbrev RoutesList := List (String × RouteManifestEntry)

/-- JavaScript property lookup on an object modelled as an association list. -/
def lookupA {α : Type} : List (String × α) → String → Option α
  | [], _ => none
  | kv :: rest, k => if kv.1 = k then some kv.2 else lookupA rest k

/-- Replace the value stored at key `k` (first occurrence), leaving the key
order unchanged; the identity when the key is absent.  Models in-place
mutation of the object held in the map. -/
def setValA {α : Type} : List (String × α) → String → α → List (String × α)
  | [], _, _ => []
  | kv :: rest, k, v => if kv.1 = k then (kv.1, v) :: rest else kv :: setValA rest k v

/-- JavaScript property assignment `obj[k] = v`: overwrite in place when the
key exists, append otherwise. -/
def objSet {α : Type} (m : List (String × α)) (k : String) (v : α) : List (String × α) :=
  if (lookupA m k).isSome then setValA m k v else m ++ [(k, v)]

/-- JavaScript truthiness of an optional string: `undefined` and the empty
string are falsy. -/
def truthyStr : Option String → Option String
  | none => none
  | some s => if s = "" then none else some s

/-- The two kinds of exception the embedded code can throw: `invariant`
failures from `../invariant` and the TypeError raised by reading a property
of `undefined`. -/
inductive JsError where
  | invariantError (message : String)
  | typeError (message : String)
deriving DecidableEq

deriving instance DecidableEq for Except

/-- State threaded through the optimizer pass: the (mutated) routes object and
the `importsCache`.  The cache is only ever looked up, never enumerated, so
prepending a pair models the property assignment `importsCache[routeId] = v`. -/
structure OptState where
  routes : RoutesList
  importsCache : List (String × List String)
deriving DecidableEq

/-- Lines 168-179 of manifest.ts: filter the route's raw import list against
the accumulated parent imports, store `undefined` instead of an empty list on
the route, cache the filtered list, and return it. -/
def finishRoute (routeId : String) (route : RouteManifestEntry)
    (parentImports : List String) (st : OptState) : List String × OptState :=
  let routeImports := (route.imports.getD []).filter (fun url => !(parentImports.contains url))
  ( routeImports,
    { routes := setValA st.routes routeId
        { route with imports := if routeImports.length > 0 then some routeImports else none },
      importsCache := (routeId, routeImports) :: st.importsCache } )

/-- `optimizeRouteImports` (manifest.ts lines 152-180).  The fuel parameter
makes the unbounded recursion along `parentId` links total: a result of
`none` models non-termination.  A cached value (arrays are always truthy, so
presence in the cache is what the source's truthiness test observes) is
returned immediately; looking up a route id absent from `routes` throws a
TypeError when `route.parentId` is then read. -/
def optimizeRouteImports : Nat → String → OptState → List String →
    Option (Except JsError (List String × OptState))
  | 0, _, _, _ => none
  | Nat.succ fuel, routeId, st, parentImports =>
    match lookupA st.importsCache routeId with
    | some cached => some (Except.ok (cached, st))
    | none =>
      match lookupA st.routes routeId with
      | none => some (Except.error (JsError.typeError
          ("Cannot read properties of undefined while optimizing " ++ routeId)))
      | some route =>
        match truthyStr route.parentId with
        | some pid =>
          match optimizeRouteImports fuel pid st parentImports with
          | none => none
          | some (Except.error e) => some (Except.error e)
          | some (Except.ok (parentPruned, st1)) =>
            some (Except.ok (finishRoute routeId route (parentImports ++ parentPruned) st1))
        | none => some (Except.ok (finishRoute routeId route parentImports st))

/-- The `for key in routes` loop body sequence of `optimizeRoutes`. -/
def optimizeRoutesAux (fuel : Nat) (entryImports : List String) :
    List String → OptState → Option (Except JsError OptState)
  | [], st => some (Except.ok st)
  | k :: ks, st =>
    match optimizeRouteImports fuel k st entryImports with
    | none => none
    | some (Except.error e) => some (Except.error e)
    | some (Except.ok (_, st1)) => optimizeRoutesAux fuel entryImports ks st1

/-- `optimizeRoutes` (manifest.ts lines 139-150): run `optimizeRouteImports`
over every route id with a fresh empty cache and the entry point's imports as
the initial parent imports. -/
def optimizeRoutes (fuel : Nat) (routes : RoutesList) (entryImports : List String) :
    Option (Except JsError RoutesList) :=
  match optimizeRoutesAux fuel entryImports (routes.map (fun kv => kv.1)) ⟨routes, []⟩ with
  | none => none
  | some (Except.error e) => some (Except.error e)
  | some (Except.ok st) => some (Except.ok st.routes)

/-- One step along a `parentId` link: defined exactly when the route is
present and its `parentId` is truthy. -/
def parStep (routes : RoutesList) (k : String) : Option String :=
  match lookupA routes k with
  | none => none
  | some r => truthyStr r.parentId

/-- Iterate `parStep` n times. -/
def parIter (routes : RoutesList) : Nat → String → Option String
  | 0, k => some k
  | n + 1, k =>
    match parIter routes n k with
    | none => none
    | some k1 => parStep routes k1

/-- The `parentId` chain starting at `k` reaches a route with no (present,
truthy) parent within `n` steps. -/
def reachesBaseB (routes : RoutesList) : Nat → String → Bool
  | 0, _ => false
  | n + 1, k =>
    match parStep routes k with
    | none => true
    | some p => reachesBaseB routes n p

/-- The list a route's raw imports are filtered against, read off the
optimized manifest: the entry point's imports followed by the parent's
pruned imports. -/
def prunedAgainst (routes1 : RoutesList) (entryImports : List String)
    (r0 : RouteManifestEntry) : List String :=
  let cover := entryImports ++
    (match truthyStr r0.parentId with
     | some p => ((lookupA routes1 p).map (fun rp => rp.imports.getD [])).getD []
     | none => [])
  (r0.imports.getD []).filter (fun url => !(cover.contains url))

/-- The pruned imports of a route together with those of its ancestors,
following `parentId` links for at most `n` steps. -/
def ancUnion (routes1 : RoutesList) : Nat → String → List String
  | 0, _ => []
  | n + 1, k =>
    match lookupA routes1 k with
    | none => []
    | some r =>
      r.imports.getD [] ++
        (match truthyStr r.parentId with
         | some p => ancUnion routes1 n p
         | none => [])

/-- One route of `RemixConfig["routes"]`. -/
structure ConfigRoute where
  id : String
  parentId : Option String
  path : Option String
  index : Option Bool
  caseSensitive : Option Bool
  file : String
deriving DecidableEq, Inhabited

/-- The slice of `RemixConfig` that `create` and `write` read. -/
structure RemixConfig where
  publicPath : String
  assetsBuildDirectory : String
  entryClientFilePath : String
  routes : List (String × ConfigRoute)
deriving DecidableEq, Inhabited

/-- One element of an esbuild metafile output's `imports` array. -/
structure MetafileImport where
  path : String
  kind : String
deriving DecidableEq, Inhabited

/-- One entry of `metafile.outputs`. -/
structure MetafileOutput where
  entryPoint : Option String
  imports : List MetafileImport
deriving DecidableEq, Inhabited

/-- The esbuild metafile: output file path keyed entries. -/
structure Metafile where
  outputs : List (String × MetafileOutput)
deriving DecidableEq, Inhabited

/-- `Manifest["entry"]`. -/
structure ManifestEntryPoint where
  module : String
  imports : List String
deriving DecidableEq, Inhabited

/-- Modelled from the spec: the optional hot-reload descriptor
(`Manifest["hmr"]`, declared in packages/remix-dev/manifest.ts, which is not
under src/); `create` only passes it through, so a single field suffices. -/
structure Hmr where
  runtime : String
deriving DecidableEq, Inhabited

/-- The assets manifest returned by `create`; `url` stays `none` until
`write` stamps it. -/
structure AssetsManifest where
  entry : ManifestEntryPoint
  routes : RoutesList
  cssBundleHref : Option String
  version : String
  hmr : Option Hmr
  url : Option String
deriving DecidableEq, Inhabited

/-- Modelled from the spec: JavaScript's `String.prototype.split` with a
single-character separator, on the character list. -/
def splitChar (sep : Char) : List Char → List (List Char)
  | [] => [[]]
  | c :: cs =>
    match splitChar sep cs with
    | [] => [[]]
    | g :: gs => if c = sep then [] :: g :: gs else (c :: g) :: gs

/-- Modelled from the spec: JavaScript's `String.prototype.startsWith`. -/
def jsStartsWith (s : String) (p : String) : Bool := List.isPrefixOf p.data s.data

/-- Modelled from the spec: JavaScript's `String.prototype.endsWith`. -/
def jsEndsWith (s : String) (p : String) : Bool := List.isSuffixOf p.data s.data

/-- `createUrl` (manifest.ts lines 133-135): normalize Windows separators
(`path.win32.sep`, the single backslash, character 92) to forward slashes and
prepend the public path. -/
def createUrl (publicPath : String) (file : String) : String :=
  publicPath ++
    String.intercalate "/" ((splitChar (Char.ofNat 92) file.data).map String.mk)

/-- Modelled from the spec: Node's `path.resolve`.  Build output paths are
taken to be already absolute and normalized, so resolution is the identity. -/
def pathResolve (p : String) : String := p

/-- Modelled from the spec: Node's `path.relative` computes the path of the
target relative to the base directory, here by stripping the base and its
separator when they lead the target. -/
def pathRelative (base : String) (target : String) : String :=
  if jsStartsWith target (base ++ "/") then target.drop (base.length + 1) else target

/-- Modelled from the spec: Node's `path.join` of a directory and a filename. -/
def pathJoin (dir : String) (file : String) : String := dir ++ "/" ++ file

/-- `resolveUrl` (manifest.ts lines 24-29). -/
def resolveUrl (config : RemixConfig) (outputPath : String) : String :=
  createUrl config.publicPath
    (pathRelative config.assetsBuildDirectory (pathResolve outputPath))

/-- `resolveImports` (manifest.ts lines 31-37): keep only statement-level
static imports and resolve each to a URL. -/
def resolveImports (config : RemixConfig) (imports : List MetafileImport) : List String :=
  (imports.filter (fun im => im.kind == "import-statement")).map
    (fun im => resolveUrl config im.path)

/-- `routesByFile` (manifest.ts lines 39-49): group the config's routes by
their source file, preserving insertion order. -/
def routesByFile (config : RemixConfig) : List (String × List ConfigRoute) :=
  config.routes.foldl
    (fun map kv =>
      let route := kv.2
      match lookupA map route.file with
      | some existing => setValA map route.file (existing ++ [route])
      | none => map ++ [(route.file, [route])])
    []

/-- Strip the reserved `browser-route-module:` marker and `?browser` suffix,
as the regex replacement on line 65-68 does. -/
def stripRouteModuleMarkers (s : String) : String :=
  let s1 := if jsStartsWith s "browser-route-module:"
    then s.drop ("browser-route-module:".length) else s
  if jsEndsWith s1 "?browser" then s1.dropRight ("?browser".length) else s1

/-- Modelled from the spec: JavaScript's default string comparison, comparing
character code values lexicographically. -/
def charListLe : List Char → List Char → Bool
  | [], _ => true
  | _ :: _, [] => false
  | c :: cs, d :: ds =>
    if c.toNat < d.toNat then true
    else if d.toNat < c.toNat then false
    else charListLe cs ds

/-- Modelled from the spec: JavaScript's `Array.prototype.sort()` with the
default comparator orders strings lexicographically; an insertion sort gives
the same (stable, lexicographic) result. -/
def insertSorted (s : String) : List String → List String
  | [] => [s]
  | t :: ts => if charListLe s.data t.data then s :: t :: ts else t :: insertSorted s ts

/-- `Object.keys(metafile.outputs).sort()` (manifest.ts line 54). -/
def sortedOutputKeys (metafile : Metafile) : List String :=
  (metafile.outputs.map (fun kv => kv.1)).foldr insertSorted []

/-- Accumulator of the output loop: the entry point found so far (if any) and
the routes object under construction. -/
structure BuildState where
  entry : Option ManifestEntryPoint
  routes : RoutesList
deriving DecidableEq, Inhabited

/-- The body of the `for key of Object.keys(metafile.outputs).sort()` loop
(manifest.ts lines 54-91).  `sourceExports` models the external
`getRouteModuleExports` collaborator. -/
def processOutput (config : RemixConfig) (sourceExports : String → List String)
    (metafile : Metafile) (key : String) (st : BuildState) : Except JsError BuildState :=
  match lookupA metafile.outputs key with
  | none => Except.ok st
  | some output =>
    match truthyStr output.entryPoint with
    | none => Except.ok st
    | some entryPoint =>
      if pathResolve entryPoint = config.entryClientFilePath then
        let newEntry : ManifestEntryPoint :=
          { module := resolveUrl config key,
            imports := resolveImports config output.imports }
        Except.ok { st with entry := some newEntry }
      else if jsStartsWith entryPoint "browser-route-module:" then
        match lookupA (routesByFile config) (stripRouteModuleMarkers entryPoint) with
        | none => Except.error (JsError.invariantError
            ("Cannot get route(s) for entry point " ++ entryPoint))
        | some groupedRoute =>
          let newRoutes : RoutesList := groupedRoute.foldl
            (fun rs route =>
              let exports := sourceExports route.id
              objSet rs route.id
                { id := route.id,
                  parentId := route.parentId,
                  path := route.path,
                  index := route.index,
                  caseSensitive := route.caseSensitive,
                  module := resolveUrl config key,
                  imports := some (resolveImports config output.imports),
                  hasAction := exports.contains "action",
                  hasLoader := exports.contains "loader",
                  hasCatchBoundary := exports.contains "CatchBoundary",
                  hasErrorBoundary := exports.contains "ErrorBoundary" })
            st.routes
          Except.ok { st with routes := newRoutes }
      else Except.ok st

/-- Run the output loop over a list of keys. -/
def buildLoop (config : RemixConfig) (sourceExports : String → List String)
    (metafile : Metafile) : List String → BuildState → Except JsError BuildState
  | [], st => Except.ok st
  | k :: ks, st =>
    match processOutput config sourceExports metafile k st with
    | Except.error e => Except.error e
    | Except.ok st1 => buildLoop config sourceExports metafile ks st1

/-- The sixteen hexadecimal digit characters, lowercase. -/
def hexChar (n : Nat) : Char :=
  if n < 10 then Char.ofNat (48 + n) else Char.ofNat (87 + n)

/-- Modelled from the spec: `getHash` (compiler/utils/crypto.ts, which is not
under src/) produces a deterministic content fingerprint rendered, like a
sha256 digest, as a 64-character lowercase hexadecimal string.  A polynomial
accumulator over the input stands in for the cipher. -/
def getHash (s : String) : String :=
  let n := s.data.foldl (fun acc c => (acc * 65599 + c.toNat) % (2 ^ 256)) 0
  String.mk ((List.range 64).map (fun i => hexChar (n / 16 ^ (63 - i) % 16)))

/-- Modelled from the spec: JavaScript's `String.prototype.slice` on
character positions. -/
def strSlice (s : String) (a : Nat) (b : Nat) : String :=
  String.mk ((s.data.drop a).take (b - a))

/-- Modelled from the spec: JavaScript's `String.prototype.toUpperCase`
applied characterwise. -/
def strToUpper (s : String) : String :=
  String.mk (s.data.map Char.toUpper)

/-- Modelled from the spec: `JSON.stringify` of a string.  Escaping is
omitted; build-output URLs contain no characters needing JSON escapes. -/
def jsonString (s : String) : String := "\"" ++ s ++ "\""

/-- `JSON.stringify` of a boolean. -/
def jsonBool (b : Bool) : String := if b then "true" else "false"

/-- `JSON.stringify` of an array of strings. -/
def jsonStringArray (l : List String) : String :=
  "[" ++ String.intercalate "," (l.map jsonString) ++ "]"

/-- `JSON.stringify` of the manifest's entry point object. -/
def jsonEntryPoint (e : ManifestEntryPoint) : String :=
  "\x7b\"module\":" ++ jsonString e.module ++
    ",\"imports\":" ++ jsonStringArray e.imports ++ "\x7d"

/-- `JSON.stringify` of one route's manifest entry: fields in property
insertion order, `undefined` fields omitted. -/
def jsonRouteEntry (r : RouteManifestEntry) : String :=
  let fields : List (Option String) :=
    [some ("\"id\":" ++ jsonString r.id),
     r.parentId.map (fun p => "\"parentId\":" ++ jsonString p),
     r.path.map (fun p => "\"path\":" ++ jsonString p),
     r.index.map (fun b => "\"index\":" ++ jsonBool b),
     r.caseSensitive.map (fun b => "\"caseSensitive\":" ++ jsonBool b),
     some ("\"module\":" ++ jsonString r.module),
     r.imports.map (fun l => "\"imports\":" ++ jsonStringArray l),
     some ("\"hasAction\":" ++ jsonBool r.hasAction),
     some ("\"hasLoader\":" ++ jsonBool r.hasLoader),
     some ("\"hasCatchBoundary\":" ++ jsonBool r.hasCatchBoundary),
     some ("\"hasErrorBoundary\":" ++ jsonBool r.hasErrorBoundary)]
  "\x7b" ++ String.intercalate "," (fields.filterMap id) ++ "\x7d"

/-- `JSON.stringify` of the routes object. -/
def jsonRoutesObject (routes : RoutesList) : String :=
  "\x7b" ++ String.intercalate ","
    (routes.map (fun kv => jsonString kv.1 ++ ":" ++ jsonRouteEntry kv.2)) ++ "\x7d"

/-- `JSON.stringify(fingerprintedValues)` (manifest.ts lines 97-103): the
object holding `entry`, `routes` and `cssBundleHref`, an absent
`cssBundleHref` being omitted. -/
def jsonFingerprinted (entry : ManifestEntryPoint) (routes : RoutesList)
    (cssBundleHref : Option String) : String :=
  "\x7b\"entry\":" ++ jsonEntryPoint entry ++
    ",\"routes\":" ++ jsonRoutesObject routes ++
    (match cssBundleHref with
     | some c => ",\"cssBundleHref\":" ++ jsonString c
     | none => "") ++ "\x7d"

/-- `JSON.stringify(assetsManifest)` as serialized by `write`: property
insertion order `entry, routes, cssBundleHref, version, hmr, url`, with
absent optional fields omitted. -/
def jsonAssetsManifest (m : AssetsManifest) : String :=
  "\x7b\"entry\":" ++ jsonEntryPoint m.entry ++
    ",\"routes\":" ++ jsonRoutesObject m.routes ++
    (match m.cssBundleHref with
     | some c => ",\"cssBundleHref\":" ++ jsonString c
     | none => "") ++
    ",\"version\":" ++ jsonString m.version ++
    (match m.hmr with
     | some h => ",\"hmr\":\x7b\"runtime\":" ++ jsonString h.runtime ++ "\x7d"
     | none => "") ++
    (match m.url with
     | some u => ",\"url\":" ++ jsonString u
     | none => "") ++ "\x7d"

/-- `create` (manifest.ts lines 13-114).  The fuel only feeds the optimizer
recursion; `none` models a build that never terminates, `Except.error` a
thrown invariant failure or TypeError. -/
def create (fuel : Nat) (config : RemixConfig) (metafile : Metafile)
    (cssBundleHref : Option String) (hmr : Option Hmr)
    (sourceExports : String → List String) : Option (Except JsError AssetsManifest) :=
  match buildLoop config sourceExports metafile (sortedOutputKeys metafile) ⟨none, []⟩ with
  | Except.error e => some (Except.error e)
  | Except.ok st =>
    match st.entry with
    | none => some (Except.error (JsError.invariantError "Missing output for entry point"))
    | some entry =>
      match optimizeRoutes fuel st.routes entry.imports with
      | none => none
      | some (Except.error e) => some (Except.error e)
      | some (Except.ok routes) =>
        let version := strSlice (getHash (jsonFingerprinted entry routes cssBundleHref)) 0 8
        some (Except.ok
          { entry := entry, routes := routes, cssBundleHref := cssBundleHref,
            version := version, hmr := hmr, url := none })

/-- The file produced by `writeFileSafe`: its path and exact contents. -/
structure WrittenFile where
  path : String
  contents : String
deriving DecidableEq, Inhabited

/-- `write` (manifest.ts lines 116-125): derive the versioned filename, stamp
the manifest's `url`, and emit the single assignment statement to the global
`window.__remixManifest`.  The filesystem side effect is modelled by
returning the written file as a value. -/
def write (config : RemixConfig) (assetsManifest : AssetsManifest) :
    WrittenFile × AssetsManifest :=
  let filename := "manifest-" ++ strToUpper assetsManifest.version ++ ".js"
  let stamped := { assetsManifest with url := some (config.publicPath ++ filename) }
  ( { path := pathJoin config.assetsBuildDirectory filename,
      contents := "window.__remixManifest=" ++ jsonAssetsManifest stamped ++ ";" },
    stamped )

/-- A build followed by a write: the composition the compiler pipeline runs.
No file exists unless `create` succeeded. -/
def createThenWrite (fuel : Nat) (config : RemixConfig) (metafile : Metafile)
    (cssBundleHref : Option String) (hmr : Option Hmr)
    (sourceExports : String → List String) :
    Option (Except JsError (WrittenFile × AssetsManifest)) :=
  match create fuel config metafile cssBundleHref hmr sourceExports with
  | none => none
  | some (Except.error e) => some (Except.error e)
  | some (Except.ok m) => some (Except.ok (write config m))

/-! ### Concrete fixtures

Small manifests used to witness the theorems below.  `baseEntry` is just a
template record; the fixtures override the fields they care about. -/

/-- A blank manifest entry used as a template for fixtures. -/
def baseEntry : RouteManifestEntry :=
  { id := "", parentId := none, path := none, index := none, caseSensitive := none,
    module := "", imports := none, hasAction := false, hasLoader := false,
    hasCatchBoundary := false, hasErrorBoundary := false }

/-- Entry-point imports of the spec's worked scenario. -/
def exEntryImports : List String := ["A", "B"]

/-- Parent route of the spec's worked scenario, raw imports `[A, B, C]`. -/
def exParentRoute : RouteManifestEntry :=
  { baseEntry with id := "parent", module := "parent.js", imports := some ["A", "B", "C"] }

/-- Child route of the spec's worked scenario, raw imports `[A, B, C, D]`. -/
def exChildRoute : RouteManifestEntry :=
  { baseEntry with
      id := "child", parentId := some "parent", module := "child.js",
      imports := some ["A", "B", "C", "D"] }

/-- The spec's worked scenario: a parent and a child route. -/
def exRoutes : RoutesList := [("parent", exParentRoute), ("child", exChildRoute)]

/-- The optimized result of the worked scenario: parent keeps `[C]`, child
keeps `[D]`. -/
def exRoutesOpt : RoutesList :=
  [("parent", { exParentRoute with imports := some ["C"] }),
   ("child", { exChildRoute with imports := some ["D"] })]

/-- Grandparent route of the three-level chain: raw imports `[E, X]`. -/
def cGrand : RouteManifestEntry :=
  { baseEntry with id := "gp", module := "gp.js", imports := some ["E", "X"] }

/-- Middle route of the three-level chain: raw imports `[E]`. -/
def cParent : RouteManifestEntry :=
  { baseEntry with
      id := "p", parentId := some "gp", module := "p.js", imports := some ["E"] }

/-- Leaf route of the three-level chain: raw imports `[E, X]`. -/
def cChild : RouteManifestEntry :=
  { baseEntry with
      id := "r", parentId := some "p", module := "r.js", imports := some ["E", "X"] }

/-- A three-level parent chain `r → p → gp`. -/
def cRoutes : RoutesList := [("gp", cGrand), ("p", cParent), ("r", cChild)]

/-- Entry imports of the three-level chain fixture. -/
def cEntryImports : List String := ["E"]

/-- The optimizer's output on `cRoutes`: the leaf keeps `X` even though the
grandparent's raw imports contain `X`. -/
def cRoutesOpt : RoutesList :=
  [("gp", { cGrand with imports := some ["X"] }),
   ("p", { cParent with imports := none }),
   ("r", { cChild with imports := some ["X"] })]

/-- A single route with an empty raw import list. -/
def nRoute : RouteManifestEntry :=
  { baseEntry with id := "a", module := "a.js", imports := some [] }

/-- Routes map holding only `nRoute`. -/
def nRoutes : RoutesList := [("a", nRoute)]

/-- A route whose whole import list is covered by the entry point. -/
def eRoute : RouteManifestEntry :=
  { baseEntry with id := "q", module := "q.js", imports := some ["A"] }

/-- Routes map holding only `eRoute`. -/
def eRoutes : RoutesList := [("q", eRoute)]

/-- Optimized `eRoutes`: the covered list is cleared to `undefined`. -/
def eRoutesOpt : RoutesList := [("q", { eRoute with imports := none })]

/-- A route that is its own parent. -/
def loopRoute : RouteManifestEntry :=
  { baseEntry with id := "s", parentId := some "s", module := "s.js" }

/-- A routes map with a `parentId` cycle. -/
def loopRoutes : RoutesList := [("s", loopRoute)]

/-- Minimal build configuration for the `create`/`write` witnesses. -/
def exConfig : RemixConfig :=
  { publicPath := "/build/", assetsBuildDirectory := "public/build",
    entryClientFilePath := "app/entry.client.tsx",
    routes := [("root",
      { id := "root", parentId := none, path := some "/", index := none,
        caseSensitive := none, file := "app/root.tsx" })] }

/-- Minimal bundler metafile: the client entry and one route bundle. -/
def exMetafile : Metafile :=
  { outputs :=
      [("public/build/entry.client.js",
        { entryPoint := some "app/entry.client.tsx", imports := [] }),
       ("public/build/root.js",
        { entryPoint := some "browser-route-module:app/root.tsx?browser",
          imports := [] })] }

/-- Metafile with no output matching the client entry. -/
def exMetafileNoEntry : Metafile :=
  { outputs :=
      [("public/build/root.js",
        { entryPoint := some "browser-route-module:app/root.tsx?browser",
          imports := [] })] }

/-- Source-export inspector stub: every route exports only `loader`. -/
def exSourceExports : String → List String := fun _ => ["loader"]

/-- The manifest `create` produces on the minimal fixture. -/
def exManifest : AssetsManifest :=
  (((create 2 exConfig exMetafile none none exSourceExports).getD
      (Except.ok default)).toOption).getD default

/-- The same build with a hot-reload descriptor attached. -/
def exManifestHmr : AssetsManifest :=
  (((create 2 exConfig exMetafile none (some { runtime := "hmr-runtime.js" })
      exSourceExports).getD (Except.ok default)).toOption).getD default

/-! ### Invariant of the optimizer pass

The following predicates relate an intermediate `OptState` of the pass to the
original routes object: cached values are exactly the filtered import lists
the source computes, the mutated routes object differs from the original only
at cached routes, and every cached route's parent chain reaches a base. -/

def cachedImports (cache : List (String × List String)) (k : String)
    (r0 : RouteManifestEntry) : Option (List String) :=
  match lookupA cache k with
  | some v => if v.length > 0 then some v else none
  | none => r0.imports

def cacheConsistent (routes0 : RoutesList) (entryImports : List String)
    (cache : List (String × List String)) : Prop :=
  ∀ k v, lookupA cache k = some v →
    ∃ r0, lookupA routes0 k = some r0 ∧
      (∀ p, truthyStr r0.parentId = some p →
        ∃ vp, lookupA cache p = some vp ∧
          v = (r0.imports.getD []).filter
                (fun url => !((entryImports ++ vp).contains url))) ∧
      (truthyStr r0.parentId = none →
        v = (r0.imports.getD []).filter (fun url => !(entryImports.contains url)))

def routesMatch (routes0 : RoutesList) (cache : List (String × List String))
    (cur : RoutesList) : Prop :=
  ∀ k, lookupA cur k = (lookupA routes0 k).map
    (fun r0 => { r0 with imports := cachedImports cache k r0 })

def cacheChains (routes0 : RoutesList) (cache : List (String × List String)) : Prop :=
  ∀ k v, lookupA cache k = some v → ∃ n, reachesBaseB routes0 n k = true

structure OptInv (routes0 : RoutesList) (entryImports : List String)
    (st : OptState) : Prop where
  rm : routesMatch routes0 st.importsCache st.routes
  cc : cacheConsistent routes0 entryImports st.importsCache
  ch : cacheChains routes0 st.importsCache

/-- The import field stored on an optimized route: `undefined` instead of an
empty list. -/
def importsField (l : List String) : Option (List String) :=
  if l.length > 0 then some l else none

/-! ### Lemmas and claim theorems -/

theorem lookupA_mem {α : Type} :
    ∀ (m : List (String × α)) (k : String) (v : α),
      lookupA m k = some v → (k, v) ∈ m := by
  intro m
  induction m with
  | nil => intro k v h; simp [lookupA] at h
  | cons kv rest ihm =>
    intro k v h
    obtain ⟨a, b⟩ := kv
    simp only [lookupA] at h
    by_cases hk : a = k
    · subst hk
      simp only [if_pos rfl] at h
      obtain rfl : b = v := by injection h
      exact List.mem_cons_self _ _
    · rw [if_neg hk] at h
      exact List.mem_cons_of_mem _ (ihm k v h)

theorem mem_keys_of_lookupA {α : Type} {m : List (String × α)} {k : String} {v : α}
    (h : lookupA m k = some v) : k ∈ m.map (fun kv => kv.1) := by
  have := lookupA_mem m k v h
  exact List.mem_map_of_mem _ this

theorem lookupA_isSome_of_mem_keys {α : Type} :
    ∀ {m : List (String × α)} {k : String},
      k ∈ m.map (fun kv => kv.1) → (lookupA m k).isSome = true := by
  intro m
  induction m with
  | nil => intro k h; simp at h
  | cons kv rest ihm =>
    intro k h
    simp only [lookupA]
    by_cases hk : kv.1 = k
    · simp [hk]
    · simp only [List.map_cons, List.mem_cons] at h
      rcases h with h | h
      · exact absurd h.symm hk
      · simp [hk, ihm h]

theorem lookupA_setValA_self {α : Type} :
    ∀ (m : List (String × α)) (k : String) (v : α),
      (lookupA m k).isSome = true → lookupA (setValA m k v) k = some v := by
  intro m
  induction m with
  | nil => intro k v h; simp [lookupA] at h
  | cons kv rest ihm =>
    intro k v h
    simp only [lookupA, setValA] at h ⊢
    by_cases hk : kv.1 = k
    · simp [hk, lookupA]
    · simp [hk, lookupA] at h ⊢
      exact ihm k v h

theorem lookupA_setValA_ne {α : Type} :
    ∀ (m : List (String × α)) (k1 : String) (v : α) (k2 : String), k1 ≠ k2 →
      lookupA (setValA m k1 v) k2 = lookupA m k2 := by
  intro m
  induction m with
  | nil => intro k1 v k2 _; rfl
  | cons kv rest ihm =>
    intro k1 v k2 hne
    obtain ⟨a, b⟩ := kv
    simp only [setValA]
    by_cases hk : a = k1
    · subst hk
      simp [lookupA, hne]
    · simp [if_neg hk, lookupA, ihm k1 v k2 hne]

theorem filter_self_filter {α : Type} (p : α → Bool) (l : List α) :
    List.filter p (List.filter p l) = List.filter p l := by
  induction l with
  | nil => rfl
  | cons a l ihl =>
    by_cases hp : p a
    · simp [List.filter, hp, ihl]
    · simp only [List.filter]
      simp only [Bool.not_eq_true] at hp
      simp [hp, ihl]

theorem lookupA_cons_self {α : Type} (k : String) (v : α) (m : List (String × α)) :
    lookupA ((k, v) :: m) k = some v := by simp [lookupA]

theorem lookupA_cons_ne {α : Type} {k k2 : String} (v : α) (m : List (String × α))
    (h : ¬ k = k2) : lookupA ((k, v) :: m) k2 = lookupA m k2 := by simp [lookupA, h]

theorem routesMatch_lookup {routes0 : RoutesList} {cache : List (String × List String)}
    {cur : RoutesList} {k : String} {route : RouteManifestEntry}
    (hrm : routesMatch routes0 cache cur) (hr : lookupA cur k = some route) :
    ∃ r0, lookupA routes0 k = some r0 ∧
      route = { r0 with imports := cachedImports cache k r0 } := by
  have hk := hrm k
  rw [hr] at hk
  cases h0 : lookupA routes0 k with
  | none => rw [h0] at hk; simp at hk
  | some r0 =>
    rw [h0] at hk
    simp only [Option.map] at hk
    exact ⟨r0, rfl, by injection hk⟩

theorem routesMatch_lookup_miss {routes0 : RoutesList}
    {cache : List (String × List String)} {cur : RoutesList} {k : String}
    {route : RouteManifestEntry} (hrm : routesMatch routes0 cache cur)
    (hc : lookupA cache k = none) (hr : lookupA cur k = some route) :
    lookupA routes0 k = some route := by
  obtain ⟨r0, h0, hform⟩ := routesMatch_lookup hrm hr
  rw [cachedImports, hc] at hform
  have heq : route = r0 := hform
  rw [heq]
  exact h0

theorem cachedImports_cons_ne {cache : List (String × List String)} {k k2 : String}
    (L : List String) (r0 : RouteManifestEntry) (h : ¬ k = k2) :
    cachedImports ((k, L) :: cache) k2 r0 = cachedImports cache k2 r0 := by
  simp [cachedImports, lookupA_cons_ne _ _ h]

theorem optCore (routes0 : RoutesList) (entryImports : List String) :
    ∀ fuel k st out, OptInv routes0 entryImports st →
      optimizeRouteImports fuel k st entryImports = some (Except.ok out) →
      OptInv routes0 entryImports out.2 ∧
        lookupA out.2.importsCache k = some out.1 ∧
        (∀ k2 v2, lookupA st.importsCache k2 = some v2 →
          lookupA out.2.importsCache k2 = some v2) := by
  intro fuel
  induction fuel with
  | zero =>
    intro k st out _ h
    simp [optimizeRouteImports] at h
  | succ fuel ih =>
    intro k st out hinv h
    simp only [optimizeRouteImports] at h
    cases hc : lookupA st.importsCache k with
    | some cached =>
      simp only [hc, Option.some.injEq, Except.ok.injEq] at h
      subst h
      exact ⟨hinv, hc, fun k2 v2 hk2 => hk2⟩
    | none =>
      simp only [hc] at h
      cases hr : lookupA st.routes k with
      | none => simp [hr] at h
      | some route =>
        simp only [hr] at h
        cases hp : truthyStr route.parentId with
        | none =>
          simp only [hp, Option.some.injEq, Except.ok.injEq] at h
          subst h
          have hroute0 : lookupA routes0 k = some route :=
            routesMatch_lookup_miss hinv.rm hc hr
          simp only [finishRoute]
          refine ⟨⟨?_, ?_, ?_⟩, ?_, ?_⟩
          · -- routesMatch
            intro k2
            by_cases hk2 : k2 = k
            · subst hk2
              rw [lookupA_setValA_self _ _ _ (by rw [hr]; rfl), hroute0]
              simp only [Option.map, cachedImports, lookupA_cons_self]
            · rw [lookupA_setValA_ne _ _ _ _ (fun hx => hk2 hx.symm)]
              have hcc : ∀ r0 : RouteManifestEntry,
                  cachedImports ((k, (route.imports.getD []).filter
                    (fun url => !(entryImports.contains url))) :: st.importsCache) k2 r0 =
                  cachedImports st.importsCache k2 r0 :=
                fun r0 => cachedImports_cons_ne _ r0 (fun hx => hk2 hx.symm)
              simp only [hcc]
              exact hinv.rm k2
          · -- cacheConsistent
            intro k2 v2 hv2
            by_cases hk2 : k2 = k
            · subst hk2
              rw [lookupA_cons_self] at hv2
              obtain rfl : (route.imports.getD []).filter
                  (fun url => !(entryImports.contains url)) = v2 := by injection hv2
              refine ⟨route, hroute0, ?_, fun _ => rfl⟩
              intro p hpx
              rw [hp] at hpx
              exact absurd hpx (by simp)
            · rw [lookupA_cons_ne _ _ (fun hx => hk2 hx.symm)] at hv2
              obtain ⟨r0, h0, hpar, hnopar⟩ := hinv.cc k2 v2 hv2
              refine ⟨r0, h0, ?_, hnopar⟩
              intro p hpx
              obtain ⟨vp, hvp, hform⟩ := hpar p hpx
              have hpk : ¬ k = p := by
                intro hx
                subst hx
                rw [hc] at hvp
                exact absurd hvp (by simp)
              exact ⟨vp, by rw [lookupA_cons_ne _ _ hpk]; exact hvp, hform⟩
          · -- cacheChains
            intro k2 v2 hv2
            by_cases hk2 : k2 = k
            · subst hk2
              refine ⟨1, ?_⟩
              simp only [reachesBaseB, parStep, hroute0, hp]
            · rw [lookupA_cons_ne _ _ (fun hx => hk2 hx.symm)] at hv2
              exact hinv.ch k2 v2 hv2
          · -- the freshly cached value
            exact lookupA_cons_self _ _ _
          · -- cache monotone
            intro k2 v2 hv2
            have hk2 : ¬ k = k2 := by
              intro hx
              subst hx
              rw [hc] at hv2
              exact absurd hv2 (by simp)
            rw [lookupA_cons_ne _ _ hk2]
            exact hv2
        | some pid =>
          simp only [hp] at h
          cases hrec : optimizeRouteImports fuel pid st entryImports with
          | none => simp [hrec] at h
          | some res =>
            simp only [hrec] at h
            cases res with
            | error e => simp at h
            | ok pr =>
              obtain ⟨parentPruned, st1⟩ := pr
              simp only [Option.some.injEq, Except.ok.injEq] at h
              subst h
              obtain ⟨hinv1, hpidc, hmono1⟩ := ih pid st (parentPruned, st1) hinv hrec
              have hroute0 : lookupA routes0 k = some route :=
                routesMatch_lookup_miss hinv.rm hc hr
              have hdet : ∀ w, lookupA st1.importsCache k = some w →
                  w = (route.imports.getD []).filter
                    (fun url => !((entryImports ++ parentPruned).contains url)) := by
                intro w hw
                obtain ⟨r0x, h0x, hparx, _⟩ := hinv1.cc k w hw
                rw [hroute0] at h0x
                obtain rfl : route = r0x := by injection h0x
                obtain ⟨vp, hvp, hform⟩ := hparx pid hp
                rw [hpidc] at hvp
                obtain rfl : parentPruned = vp := by injection hvp
                exact hform
              have hlift : ∀ k2 v2, lookupA st1.importsCache k2 = some v2 →
                  lookupA ((k, (route.imports.getD []).filter
                      (fun url => !((entryImports ++ parentPruned).contains url)))
                    :: st1.importsCache) k2 = some v2 := by
                intro k2 v2 hv2
                by_cases hk2 : k = k2
                · subst hk2
                  rw [hdet v2 hv2]
                  exact lookupA_cons_self _ _ _
                · rw [lookupA_cons_ne _ _ hk2]
                  exact hv2
              simp only [finishRoute]
              refine ⟨⟨?_, ?_, ?_⟩, ?_, ?_⟩
              · -- routesMatch
                intro k2
                by_cases hk2 : k2 = k
                · subst hk2
                  rw [lookupA_setValA_self _ _ _ (by rw [hinv1.rm k2, hroute0]; rfl),
                    hroute0]
                  simp only [Option.map, cachedImports, lookupA_cons_self]
                · rw [lookupA_setValA_ne _ _ _ _ (fun hx => hk2 hx.symm)]
                  have hcc : ∀ r0 : RouteManifestEntry,
                      cachedImports ((k, (route.imports.getD []).filter
                        (fun url => !((entryImports ++ parentPruned).contains url)))
                          :: st1.importsCache) k2 r0 =
                      cachedImports st1.importsCache k2 r0 :=
                    fun r0 => cachedImports_cons_ne _ r0 (fun hx => hk2 hx.symm)
                  simp only [hcc]
                  exact hinv1.rm k2
              · -- cacheConsistent
                intro k2 v2 hv2
                by_cases hk2 : k2 = k
                · subst hk2
                  rw [lookupA_cons_self] at hv2
                  obtain rfl : (route.imports.getD []).filter
                      (fun url => !((entryImports ++ parentPruned).contains url)) = v2 := by
                    injection hv2
                  refine ⟨route, hroute0, ?_, ?_⟩
                  · intro p hpx
                    rw [hp] at hpx
                    obtain rfl : pid = p := by injection hpx
                    exact ⟨parentPruned, hlift pid parentPruned hpidc, rfl⟩
                  · intro hnone
                    rw [hp] at hnone
                    exact absurd hnone (by simp)
                · rw [lookupA_cons_ne _ _ (fun hx => hk2 hx.symm)] at hv2
                  obtain ⟨r0, h0, hparx, hnoparx⟩ := hinv1.cc k2 v2 hv2
                  refine ⟨r0, h0, ?_, hnoparx⟩
                  intro p hpx
                  obtain ⟨vp, hvp, hform⟩ := hparx p hpx
                  exact ⟨vp, hlift p vp hvp, hform⟩
              · -- cacheChains
                intro k2 v2 hv2
                by_cases hk2 : k2 = k
                · subst hk2
                  obtain ⟨n, hn⟩ := hinv1.ch pid parentPruned hpidc
                  refine ⟨n + 1, ?_⟩
                  simp only [reachesBaseB, parStep, hroute0, hp]
                  exact hn
                · rw [lookupA_cons_ne _ _ (fun hx => hk2 hx.symm)] at hv2
                  exact hinv1.ch k2 v2 hv2
              · exact lookupA_cons_self _ _ _
              · intro k2 v2 hv2
                exact hlift k2 v2 (hmono1 k2 v2 hv2)

theorem optInv_init (routes0 : RoutesList) (entryImports : List String) :
    OptInv routes0 entryImports ⟨routes0, []⟩ := by
  refine ⟨?_, ?_, ?_⟩
  · intro k
    cases h0 : lookupA routes0 k with
    | none => rfl
    | some r0 => rfl
  · intro k v hv
    simp [lookupA] at hv
  · intro k v hv
    simp [lookupA] at hv

theorem optFold (routes0 : RoutesList) (entryImports : List String) (fuel : Nat) :
    ∀ ks st stf, OptInv routes0 entryImports st →
      optimizeRoutesAux fuel entryImports ks st = some (Except.ok stf) →
      OptInv routes0 entryImports stf ∧
        (∀ k2 v2, lookupA st.importsCache k2 = some v2 →
          lookupA stf.importsCache k2 = some v2) ∧
        (∀ k ∈ ks, ∃ v, lookupA stf.importsCache k = some v) := by
  intro ks
  induction ks with
  | nil =>
    intro st stf hinv h
    simp only [optimizeRoutesAux, Option.some.injEq, Except.ok.injEq] at h
    subst h
    exact ⟨hinv, fun _ _ hv => hv, by simp⟩
  | cons k ks ihks =>
    intro st stf hinv h
    simp only [optimizeRoutesAux] at h
    cases hstep : optimizeRouteImports fuel k st entryImports with
    | none => simp [hstep] at h
    | some res =>
      simp only [hstep] at h
      cases res with
      | error e => simp at h
      | ok out =>
        obtain ⟨v, st1⟩ := out
        obtain ⟨hinv1, hkc, hmono1⟩ :=
          optCore routes0 entryImports fuel k st (v, st1) hinv hstep
        obtain ⟨hinvf, hmonof, hall⟩ := ihks st1 stf hinv1 h
        refine ⟨hinvf, fun k2 v2 hv2 => hmonof k2 v2 (hmono1 k2 v2 hv2), ?_⟩
        intro k2 hk2
        rcases List.mem_cons.mp hk2 with rfl | hk2m
        · exact ⟨v, hmonof k2 v hkc⟩
        · exact hall k2 hk2m

theorem optimize_final (routes0 : RoutesList) (entryImports : List String) (fuel : Nat)
    (routes1 : RoutesList)
    (h : optimizeRoutes fuel routes0 entryImports = some (Except.ok routes1)) :
    ∃ cache, OptInv routes0 entryImports ⟨routes1, cache⟩ ∧
      (∀ k ∈ routes0.map (fun kv => kv.1), ∃ v, lookupA cache k = some v) := by
  simp only [optimizeRoutes] at h
  cases haux : optimizeRoutesAux fuel entryImports
      (routes0.map (fun kv => kv.1)) ⟨routes0, []⟩ with
  | none => simp [haux] at h
  | some res =>
    simp only [haux] at h
    cases res with
    | error e => simp at h
    | ok stf =>
      simp only [Option.some.injEq, Except.ok.injEq] at h
      subst h
      obtain ⟨hinvf, _, hall⟩ :=
        optFold routes0 entryImports fuel _ _ _ (optInv_init routes0 entryImports) haux
      exact ⟨stf.importsCache, hinvf, hall⟩

theorem getD_if_length (l : List String) :
    (if l.length > 0 then some l else none).getD [] = l := by
  cases l <;> simp

theorem importsField_getD (l : List String) : (importsField l).getD [] = l := by
  rw [importsField]
  exact getD_if_length l

theorem optimize_keys (routes0 : RoutesList) (entryImports : List String) (fuel : Nat)
    (routes1 : RoutesList)
    (h : optimizeRoutes fuel routes0 entryImports = some (Except.ok routes1)) :
    ∀ k, (lookupA routes1 k).isSome = (lookupA routes0 k).isSome := by
  obtain ⟨cache, hinvf, _⟩ := optimize_final routes0 entryImports fuel routes1 h
  intro k
  rw [hinvf.rm k]
  cases lookupA routes0 k <;> rfl

theorem optimize_ok_spec (routes0 : RoutesList) (entryImports : List String) (fuel : Nat)
    (routes1 : RoutesList)
    (h : optimizeRoutes fuel routes0 entryImports = some (Except.ok routes1)) :
    ∀ k r0, lookupA routes0 k = some r0 →
      lookupA routes1 k = some { r0 with
          imports := importsField (prunedAgainst routes1 entryImports r0) } ∧
      (∀ p, truthyStr r0.parentId = some p →
        ∃ rp0, lookupA routes0 p = some rp0) ∧
      (∃ n, reachesBaseB routes0 n k = true) := by
  obtain ⟨cache, hinvf, hall⟩ := optimize_final routes0 entryImports fuel routes1 h
  intro k r0 h0
  obtain ⟨v, hv⟩ := hall k (mem_keys_of_lookupA h0)
  obtain ⟨r0', h0', hpar, hnopar⟩ := hinvf.cc k v hv
  rw [h0] at h0'
  obtain rfl : r0 = r0' := by injection h0'
  have hrmk := hinvf.rm k
  rw [h0] at hrmk
  have hpv : prunedAgainst routes1 entryImports r0 = v := by
    cases hpx : truthyStr r0.parentId with
    | none =>
      rw [hnopar hpx]
      simp only [prunedAgainst, hpx, List.append_nil]
    | some p =>
      obtain ⟨vp, hvp, hform⟩ := hpar p hpx
      obtain ⟨rp0, hp0, _, _⟩ := hinvf.cc p vp hvp
      have hrmp := hinvf.rm p
      rw [hp0] at hrmp
      have hcover : ((lookupA routes1 p).map (fun rp => rp.imports.getD [])).getD [] = vp := by
        rw [hrmp]
        simp only [Option.map, cachedImports, hv]
        rw [show lookupA cache p = some vp from hvp]
        cases vp <;> simp
      rw [hform]
      simp only [prunedAgainst, hpx, hcover]
  refine ⟨?_, fun p hpx => ?_, hinvf.ch k v hv⟩
  · rw [hrmk]
    simp only [Option.map, cachedImports, hv, importsField, hpv]
  · obtain ⟨vp, hvp, _⟩ := hpar p hpx
    obtain ⟨rp0, hp0, _, _⟩ := hinvf.cc p vp hvp
    exact ⟨rp0, hp0⟩

theorem reachesBaseB_succ (routes : RoutesList) (n : Nat) (k : String) :
    reachesBaseB routes (n + 1) k =
      (match parStep routes k with
       | none => true
       | some p => reachesBaseB routes n p) := rfl

theorem parIter_succ (routes : RoutesList) (n : Nat) (k : String) :
    parIter routes (n + 1) k =
      (match parIter routes n k with
       | none => none
       | some k1 => parStep routes k1) := rfl

theorem parIter_add (routes : RoutesList) (a b : Nat) (k : String) :
    parIter routes (a + b) k = (parIter routes a k).bind (parIter routes b) := by
  induction b with
  | zero =>
    cases h : parIter routes a k <;> simp [parIter, h, Option.bind]
  | succ b ihb =>
    rw [show a + (b + 1) = (a + b) + 1 from rfl, parIter_succ, ihb]
    cases h : parIter routes a k with
    | none => rfl
    | some v =>
      simp only [Option.bind]
      rw [parIter_succ]

theorem cycle_alive (routes : RoutesList) (k : String) (n : Nat)
    (hcyc : parIter routes (n + 1) k = some k) :
    ∀ m, parIter routes m k ≠ none := by
  intro m
  induction m using Nat.strong_induction_on with
  | _ m ihm =>
    by_cases hm : m ≤ n + 1
    · intro hnone
      have hz : parIter routes (n + 1) k = none := by
        rw [show n + 1 = m + (n + 1 - m) by omega, parIter_add, hnone]
        rfl
      rw [hcyc] at hz
      exact absurd hz (by simp)
    · have hm2 : m = (n + 1) + (m - (n + 1)) := by omega
      rw [hm2, parIter_add, hcyc]
      simp only [Option.bind]
      exact ihm (m - (n + 1)) (by omega)

theorem opt_diverges (parentImports : List String) :
    ∀ fuel k (st : OptState), st.importsCache = [] →
      (∀ m, parIter st.routes m k ≠ none) →
      optimizeRouteImports fuel k st parentImports = none := by
  intro fuel
  induction fuel with
  | zero => intro k st _ _; rfl
  | succ fuel ih =>
    intro k st hcache halive
    have h1 : parStep st.routes k ≠ none := halive 1
    cases hr : lookupA st.routes k with
    | none =>
      rw [parStep, hr] at h1
      exact absurd rfl h1
    | some route =>
      cases hp : truthyStr route.parentId with
      | none =>
        simp only [parStep, hr, hp] at h1
        exact absurd rfl h1
      | some pid =>
        have hpid : parIter st.routes 1 k = some pid := by
          rw [parIter_succ]
          simp only [parIter, parStep, hr, hp]
        have halivep : ∀ m, parIter st.routes m pid ≠ none := by
          intro m
          have := halive (1 + m)
          rw [parIter_add, hpid] at this
          exact this
        have hrec := ih pid st hcache halivep
        simp only [optimizeRouteImports, hcache, lookupA, hr, hp, hrec]

theorem term_of_chain (parentImports : List String) :
    ∀ fuel n k (st : OptState), reachesBaseB st.routes n k = true → n ≤ fuel →
      (optimizeRouteImports fuel k st parentImports).isSome = true := by
  intro fuel
  induction fuel with
  | zero =>
    intro n k st hrb hn
    obtain rfl : n = 0 := Nat.le_zero.mp hn
    simp [reachesBaseB] at hrb
  | succ fuel ih =>
    intro n k st hrb hn
    cases hc : lookupA st.importsCache k with
    | some cached => simp [optimizeRouteImports, hc]
    | none =>
      cases hr : lookupA st.routes k with
      | none => simp [optimizeRouteImports, hc, hr]
      | some route =>
        cases hp : truthyStr route.parentId with
        | none => simp [optimizeRouteImports, hc, hr, hp]
        | some pid =>
          cases n with
          | zero => simp [reachesBaseB] at hrb
          | succ n =>
            have hstep : parStep st.routes k = some pid := by
              simp [parStep, hr, hp]
            rw [reachesBaseB_succ, hstep] at hrb
            have hrec := ih n pid st hrb (Nat.le_of_succ_le_succ hn)
            cases hx : optimizeRouteImports fuel pid st parentImports with
            | none => rw [hx] at hrec; simp at hrec
            | some res =>
              cases res with
              | error e => simp [optimizeRouteImports, hc, hr, hp, hx]
              | ok out =>
                obtain ⟨v, st1⟩ := out
                simp [optimizeRouteImports, hc, hr, hp, hx]

theorem chain_of_acyclic (routes : RoutesList)
    (hac : ∀ k n, parIter routes (n + 1) k ≠ some k) :
    ∀ k, ∃ n, reachesBaseB routes n k = true := by
  intro k
  by_contra hno
  push_neg at hno
  have hnof : ∀ n, reachesBaseB routes n k = false := by
    intro n
    have := hno n
    revert this
    cases reachesBaseB routes n k <;> simp
  have halive : ∀ i, ∃ v, parIter routes i k = some v ∧
      (∀ n, reachesBaseB routes n v = false) := by
    intro i
    induction i with
    | zero => exact ⟨k, rfl, hnof⟩
    | succ i ihi =>
      obtain ⟨v, hv, hvf⟩ := ihi
      cases hps : parStep routes v with
      | none =>
        have h1 := hvf 1
        rw [reachesBaseB_succ, hps] at h1
        exact absurd h1 (by simp)
      | some p =>
        refine ⟨p, ?_, ?_⟩
        · simp only [parIter_succ, hv]
          exact hps
        · intro n
          have := hvf (n + 1)
          rw [reachesBaseB_succ, hps] at this
          exact this
  classical
  choose f hf1 hf2 using halive
  have hshift : ∀ a b k2 v2, parIter routes a k2 = some v2 →
      parIter routes (a + b) k2 = parIter routes b v2 := by
    intro a b k2 v2 hav
    rw [parIter_add, hav]
    rfl
  have hkeys : ∀ i, f (i + 1) ∈ routes.map (fun kv => kv.1) := by
    intro i
    have h2 : parStep routes (f (i + 1)) = some (f (i + 2)) := by
      have hs := hshift (i + 1) 1 k (f (i + 1)) (hf1 (i + 1))
      have h3 : parIter routes 1 (f (i + 1)) = some (f (i + 2)) := by
        rw [← hs]
        exact hf1 (i + 2)
      rw [parIter_succ] at h3
      exact h3
    revert h2
    rw [parStep]
    cases hl : lookupA routes (f (i + 1)) with
    | none => intro hx; exact absurd hx (by simp)
    | some r => intro _; exact mem_keys_of_lookupA hl
  have key : ∀ a b : Nat, a < b → f (a + 1) = f (b + 1) → False := by
    intro a b hab hfeq
    have h1 : parIter routes (b - a) (f (a + 1)) = some (f (b + 1)) := by
      have hs := hshift (a + 1) (b - a) k (f (a + 1)) (hf1 (a + 1))
      rw [show (a + 1) + (b - a) = b + 1 by omega] at hs
      rw [← hs]
      exact hf1 (b + 1)
    rw [← hfeq] at h1
    have hx := hac (f (a + 1)) (b - a - 1)
    rw [show b - a - 1 + 1 = b - a by omega] at hx
    exact hx h1
  set N := (routes.map (fun kv => kv.1)).length with hN
  have hcard : ((routes.map (fun kv => kv.1)).toFinset.card) < (Finset.univ : Finset (Fin (N + 1))).card := by
    have := List.toFinset_card_le (routes.map (fun kv => kv.1))
    simp only [Finset.card_univ, Fintype.card_fin]
    omega
  have hmaps : ∀ a ∈ (Finset.univ : Finset (Fin (N + 1))),
      (fun i : Fin (N + 1) => f (i.1 + 1)) a ∈ (routes.map (fun kv => kv.1)).toFinset :=
    fun i _ => List.mem_toFinset.mpr (hkeys i.1)
  obtain ⟨i, _, j, _, hij, hfij⟩ :=
    Finset.exists_ne_map_eq_of_card_lt_of_maps_to hcard hmaps
  rcases Nat.lt_or_ge i.1 j.1 with hlt | hge
  · exact key i.1 j.1 hlt hfij
  · have hlt2 : j.1 < i.1 := by
      rcases Nat.eq_or_lt_of_le hge with heq | hlt2
      · exact absurd (Fin.ext heq.symm) hij
      · exact hlt2
    exact key j.1 i.1 hlt2 hfij.symm

/-- C9 helper: divergence of the recursion on any route lying on a
`parentId` cycle, starting from the empty cache. -/
theorem opt_diverges_cycle (routes : RoutesList) (parentImports : List String)
    (k : String) (n : Nat) (hcyc : parIter routes (n + 1) k = some k) :
    ∀ fuel, optimizeRouteImports fuel k ⟨routes, []⟩ parentImports = none := by
  intro fuel
  exact opt_diverges parentImports fuel k ⟨routes, []⟩ rfl (cycle_alive routes k n hcyc)

theorem optNoerr (routes0 : RoutesList) (entryImports : List String)
    (hwf : ∀ kv ∈ routes0, ∀ p, truthyStr kv.2.parentId = some p →
      (lookupA routes0 p).isSome = true) :
    ∀ fuel k st, OptInv routes0 entryImports st →
      (lookupA routes0 k).isSome = true →
      ∀ e, optimizeRouteImports fuel k st entryImports ≠ some (Except.error e) := by
  intro fuel
  induction fuel with
  | zero => intro k st _ _ e h; simp [optimizeRouteImports] at h
  | succ fuel ih =>
    intro k st hinv hks e h
    simp only [optimizeRouteImports] at h
    cases hc : lookupA st.importsCache k with
    | some cached => simp [hc] at h
    | none =>
      simp only [hc] at h
      have hrex : ∃ route, lookupA st.routes k = some route := by
        have hrm := hinv.rm k
        cases h0 : lookupA routes0 k with
        | none => rw [h0] at hks; simp at hks
        | some r0 =>
          rw [h0] at hrm
          exact ⟨_, hrm⟩
      obtain ⟨route, hr⟩ := hrex
      simp only [hr] at h
      cases hp : truthyStr route.parentId with
      | none => simp [hp] at h
      | some pid =>
        simp only [hp] at h
        have hroute0 : lookupA routes0 k = some route :=
          routesMatch_lookup_miss hinv.rm hc hr
        have hpid : (lookupA routes0 pid).isSome = true :=
          hwf (k, route) (lookupA_mem _ _ _ hroute0) pid hp
        cases hrec : optimizeRouteImports fuel pid st entryImports with
        | none => simp [hrec] at h
        | some res =>
          simp only [hrec] at h
          cases res with
          | error e2 => exact absurd hrec (ih pid st hinv hpid e2)
          | ok out =>
            obtain ⟨v, st1⟩ := out
            simp at h

theorem optNoerrAux (routes0 : RoutesList) (entryImports : List String)
    (hwf : ∀ kv ∈ routes0, ∀ p, truthyStr kv.2.parentId = some p →
      (lookupA routes0 p).isSome = true) (fuel : Nat) :
    ∀ ks st, OptInv routes0 entryImports st →
      (∀ k ∈ ks, (lookupA routes0 k).isSome = true) →
      ∀ e, optimizeRoutesAux fuel entryImports ks st ≠ some (Except.error e) := by
  intro ks
  induction ks with
  | nil => intro st _ _ e h; simp [optimizeRoutesAux] at h
  | cons k ks ihks =>
    intro st hinv hall e h
    simp only [optimizeRoutesAux] at h
    cases hstep : optimizeRouteImports fuel k st entryImports with
    | none => simp [hstep] at h
    | some res =>
      simp only [hstep] at h
      cases res with
      | error e2 =>
        exact absurd hstep
          (optNoerr routes0 entryImports hwf fuel k st hinv (hall k (by simp)) e2)
      | ok out =>
        obtain ⟨v, st1⟩ := out
        obtain ⟨hinv1, _, _⟩ :=
          optCore routes0 entryImports fuel k st (v, st1) hinv hstep
        exact absurd h (ihks st1 hinv1
          (fun k2 hk2 => hall k2 (List.mem_cons_of_mem _ hk2)) e)

theorem contains_false_iff {l : List String} {a : String} :
    l.contains a = false ↔ a ∉ l := by
  have hx : l.contains a = List.elem a l := rfl
  rw [hx, List.elem_eq_mem]
  simp

theorem ancUnion_succ (routes1 : RoutesList) (n : Nat) (k : String) :
    ancUnion routes1 (n + 1) k =
      (match lookupA routes1 k with
       | none => []
       | some r =>
         r.imports.getD [] ++
           (match truthyStr r.parentId with
            | some p => ancUnion routes1 n p
            | none => [])) := rfl

theorem mem_prunedAgainst {routes1 : RoutesList} {entryImports : List String}
    {r0 : RouteManifestEntry} {url : String}
    (h : url ∈ prunedAgainst routes1 entryImports r0) :
    url ∈ r0.imports.getD [] ∧
    url ∉ entryImports ∧
    (∀ p, truthyStr r0.parentId = some p →
      url ∉ ((lookupA routes1 p).map (fun rp => rp.imports.getD [])).getD []) := by
  simp only [prunedAgainst] at h
  rw [List.mem_filter] at h
  obtain ⟨hraw, hpred⟩ := h
  rw [Bool.not_eq_true', contains_false_iff] at hpred
  rw [List.mem_append] at hpred
  push_neg at hpred
  obtain ⟨hentry, hcover⟩ := hpred
  refine ⟨hraw, hentry, ?_⟩
  intro p hp
  rw [hp] at hcover
  exact hcover

/-- C1 (amended): after `optimizeRoutes` runs over every route id with the
entry point's imports as the initial parent imports, no route's pruned import
list retains a URL that occurs in the entry point's import list or in its
parent route's pruned import list as recorded in the optimized manifest. -/
theorem coverage_law_amended (routes0 : RoutesList) (entryImports : List String)
    (fuel : Nat) (routes1 : RoutesList) (k : String) (r0 : RouteManifestEntry)
    (h : optimizeRoutes fuel routes0 entryImports = some (Except.ok routes1))
    (hk : lookupA routes0 k = some r0) :
    ∀ r1, lookupA routes1 k = some r1 →
      ∀ url ∈ r1.imports.getD [],
        url ∉ entryImports ∧
        ∀ p rp1, truthyStr r0.parentId = some p →
          lookupA routes1 p = some rp1 → url ∉ rp1.imports.getD [] := by
  obtain ⟨hlook, _, _⟩ := optimize_ok_spec routes0 entryImports fuel routes1 h k r0 hk
  intro r1 hr1 url hurl
  rw [hlook] at hr1
  obtain rfl : { r0 with
      imports := importsField (prunedAgainst routes1 entryImports r0) } = r1 := by
    injection hr1
  have hurl2 : url ∈ prunedAgainst routes1 entryImports r0 := by
    rw [show ({ r0 with imports := importsField (prunedAgainst routes1 entryImports r0) }
        : RouteManifestEntry).imports = importsField (prunedAgainst routes1 entryImports r0)
      from rfl, importsField_getD] at hurl
    exact hurl
  obtain ⟨_, hentry, hparent⟩ := mem_prunedAgainst hurl2
  refine ⟨hentry, ?_⟩
  intro p rp1 hpx hrp1
  have := hparent p hpx
  rw [hrp1] at this
  exact this

/-- C2 (amended): every URL of a route's raw import list is found again in
the entry point's import list or in the pruned imports of the route or one of
its ancestors in the optimized manifest. -/
theorem no_loss_superset (routes0 : RoutesList) (entryImports : List String)
    (fuel : Nat) (routes1 : RoutesList) (k : String) (r0 : RouteManifestEntry)
    (h : optimizeRoutes fuel routes0 entryImports = some (Except.ok routes1))
    (hk : lookupA routes0 k = some r0) :
    ∀ url ∈ r0.imports.getD [],
      url ∈ entryImports ∨ ∃ n, url ∈ ancUnion routes1 n k := by
  obtain ⟨hlook, hparex, _⟩ := optimize_ok_spec routes0 entryImports fuel routes1 h k r0 hk
  have hrec_imports : ({ r0 with
      imports := importsField (prunedAgainst routes1 entryImports r0) }
        : RouteManifestEntry).imports.getD [] =
      prunedAgainst routes1 entryImports r0 :=
    importsField_getD _
  intro url hurl
  by_cases hcov : url ∈ prunedAgainst routes1 entryImports r0
  · right
    refine ⟨1, ?_⟩
    rw [show (1 : Nat) = 0 + 1 from rfl]
    simp only [ancUnion_succ, hlook]
    refine List.mem_append.mpr (Or.inl ?_)
    rw [hrec_imports]
    exact hcov
  · have hmemc : url ∈ entryImports ++
        (match truthyStr r0.parentId with
         | some p => ((lookupA routes1 p).map (fun rp => rp.imports.getD [])).getD []
         | none => []) := by
      by_contra hnc
      apply hcov
      simp only [prunedAgainst]
      rw [List.mem_filter]
      refine ⟨hurl, ?_⟩
      rw [Bool.not_eq_true', contains_false_iff]
      exact hnc
    rw [List.mem_append] at hmemc
    rcases hmemc with hmem | hmem
    · exact Or.inl hmem
    · right
      cases hpx : truthyStr r0.parentId with
      | none =>
        simp only [hpx] at hmem
        simp at hmem
      | some p =>
        simp only [hpx] at hmem
        obtain ⟨rp0, hp0⟩ := hparex p hpx
        obtain ⟨hlookp, _, _⟩ :=
          optimize_ok_spec routes0 entryImports fuel routes1 h p rp0 hp0
        rw [hlookp] at hmem
        simp only [Option.map, Option.getD] at hmem
        refine ⟨2, ?_⟩
        rw [show (2 : Nat) = 1 + 1 from rfl]
        simp only [ancUnion_succ, hlook]
        refine List.mem_append.mpr (Or.inr ?_)
        have hpar1 : truthyStr ({ r0 with
            imports := importsField (prunedAgainst routes1 entryImports r0) }
              : RouteManifestEntry).parentId = some p := hpx
        simp only [hpar1, hlookp]
        exact List.mem_append.mpr (Or.inl hmem)

/-- C5: a route whose import list is emptied by the filtering against the
ancestor coverage set gets `imports = none` (the field is absent), not an
empty list. -/
theorem empty_imports_omitted (routes0 : RoutesList) (entryImports : List String)
    (fuel : Nat) (routes1 : RoutesList) (k : String) (r0 : RouteManifestEntry)
    (h : optimizeRoutes fuel routes0 entryImports = some (Except.ok routes1))
    (hk : lookupA routes0 k = some r0)
    (hempty : prunedAgainst routes1 entryImports r0 = []) :
    ∃ r1, lookupA routes1 k = some r1 ∧ r1.imports = none := by
  obtain ⟨hlook, _, _⟩ := optimize_ok_spec routes0 entryImports fuel routes1 h k r0 hk
  refine ⟨_, hlook, ?_⟩
  show importsField (prunedAgainst routes1 entryImports r0) = none
  rw [hempty]
  rfl

/-- C8: the optimizer only removes URLs; every route's pruned import list is
a subsequence of its raw import list. -/
theorem optimizer_order_preserving (routes0 : RoutesList) (entryImports : List String)
    (fuel : Nat) (routes1 : RoutesList) (k : String) (r0 : RouteManifestEntry)
    (h : optimizeRoutes fuel routes0 entryImports = some (Except.ok routes1))
    (hk : lookupA routes0 k = some r0) :
    ∃ r1, lookupA routes1 k = some r1 ∧
      List.Sublist (r1.imports.getD []) (r0.imports.getD []) := by
  obtain ⟨hlook, _, _⟩ := optimize_ok_spec routes0 entryImports fuel routes1 h k r0 hk
  refine ⟨_, hlook, ?_⟩
  show List.Sublist ((importsField (prunedAgainst routes1 entryImports r0)).getD [])
    (r0.imports.getD [])
  rw [importsField_getD]
  simp only [prunedAgainst]
  exact List.filter_sublist _

/-- C3: a second optimizer pass over an already optimized manifest changes
nothing. -/
theorem optimize_idempotent (routes0 : RoutesList) (entryImports : List String)
    (fuel1 fuel2 : Nat) (routes1 routes2 : RoutesList)
    (h1 : optimizeRoutes fuel1 routes0 entryImports = some (Except.ok routes1))
    (h2 : optimizeRoutes fuel2 routes1 entryImports = some (Except.ok routes2)) :
    ∀ k, lookupA routes2 k = lookupA routes1 k := by
  have main : ∀ n k, reachesBaseB routes1 n k = true →
      ∀ r1, lookupA routes1 k = some r1 → lookupA routes2 k = lookupA routes1 k := by
    intro n
    induction n with
    | zero =>
      intro k hrb
      simp [reachesBaseB] at hrb
    | succ n ihn =>
      intro k hrb r1 hk1
      have hk0s : (lookupA routes0 k).isSome = true := by
        rw [← optimize_keys routes0 entryImports fuel1 routes1 h1 k, hk1]
        rfl
      obtain ⟨r0, hk0⟩ : ∃ r0, lookupA routes0 k = some r0 := by
        cases hx : lookupA routes0 k with
        | none => rw [hx] at hk0s; simp at hk0s
        | some r0 => exact ⟨r0, rfl⟩
      obtain ⟨hlook1, hpar1, _⟩ :=
        optimize_ok_spec routes0 entryImports fuel1 routes1 h1 k r0 hk0
      rw [hk1] at hlook1
      obtain rfl : r1 = { r0 with
          imports := importsField (prunedAgainst routes1 entryImports r0) } := by
        injection hlook1
      obtain ⟨hlook2, _, _⟩ :=
        optimize_ok_spec routes1 entryImports fuel2 routes2 h2 k _ hk1
      rw [hk1, hlook2]
      have hL : prunedAgainst routes2 entryImports ({ r0 with
            imports := importsField (prunedAgainst routes1 entryImports r0) }
              : RouteManifestEntry) =
          prunedAgainst routes1 entryImports r0 := by
        cases hpx : truthyStr r0.parentId with
        | none =>
          simp only [prunedAgainst, hpx, importsField_getD, List.append_nil]
          exact filter_self_filter _ _
        | some p =>
          have hstep : parStep routes1 k = some p := by
            simp [parStep, hk1, hpx]
          rw [reachesBaseB_succ, hstep] at hrb
          obtain ⟨rp0, hp0⟩ := hpar1 p hpx
          obtain ⟨hlookp1, _, _⟩ :=
            optimize_ok_spec routes0 entryImports fuel1 routes1 h1 p rp0 hp0
          have hsame : lookupA routes2 p = lookupA routes1 p :=
            ihn p hrb _ hlookp1
          simp only [prunedAgainst, hpx, importsField_getD, hsame]
          exact filter_self_filter _ _
      rw [hL]
  intro k
  cases hk1 : lookupA routes1 k with
  | none =>
    have hkk := optimize_keys routes1 entryImports fuel2 routes2 h2 k
    rw [hk1] at hkk
    cases hx : lookupA routes2 k with
    | none => rfl
    | some r => rw [hx] at hkk; simp at hkk
  | some r1 =>
    obtain ⟨_, _, n, hn⟩ :=
      optimize_ok_spec routes1 entryImports fuel2 routes2 h2 k r1 hk1
    rw [← hk1]
    exact main n k hn r1 hk1

/-- C4: the version string is a deterministic function of the fingerprinted
inputs; it does not depend on the hot-reload descriptor, and stamping the
`url` field in `write` leaves it unchanged. -/
theorem version_deterministic (fuel : Nat) (config : RemixConfig) (metafile : Metafile)
    (cssBundleHref : Option String) (hmr1 hmr2 : Option Hmr)
    (sourceExports : String → List String) (m1 m2 : AssetsManifest)
    (h1 : create fuel config metafile cssBundleHref hmr1 sourceExports = some (Except.ok m1))
    (h2 : create fuel config metafile cssBundleHref hmr2 sourceExports = some (Except.ok m2)) :
    m1.version = m2.version ∧ (write config m1).2.version = m1.version := by
  refine ⟨?_, rfl⟩
  simp only [create] at h1 h2
  cases hbl : buildLoop config sourceExports metafile (sortedOutputKeys metafile) ⟨none, []⟩ with
  | error e => simp [hbl] at h1
  | ok st =>
    simp only [hbl] at h1 h2
    cases hentry : st.entry with
    | none => simp [hentry] at h1
    | some entry =>
      simp only [hentry] at h1 h2
      cases hopt : optimizeRoutes fuel st.routes entry.imports with
      | none => simp [hopt] at h1
      | some res =>
        simp only [hopt] at h1 h2
        cases res with
        | error e => simp at h1
        | ok routes =>
          simp only [Option.some.injEq, Except.ok.injEq] at h1 h2
          rw [← h1, ← h2]

/-- C6: when no bundler output resolves to the configured client entry file,
`create` fails with an invariant error, returns no manifest, and the
composed build-and-write step produces no file. -/
theorem missing_entry_fatal (fuel : Nat) (config : RemixConfig) (metafile : Metafile)
    (cssBundleHref : Option String) (hmr : Option Hmr)
    (sourceExports : String → List String)
    (hnoentry : ∀ kv ∈ metafile.outputs,
      ((truthyStr kv.2.entryPoint).map pathResolve) ≠ some config.entryClientFilePath) :
    ∃ msg,
      create fuel config metafile cssBundleHref hmr sourceExports =
        some (Except.error (JsError.invariantError msg)) ∧
      createThenWrite fuel config metafile cssBundleHref hmr sourceExports =
        some (Except.error (JsError.invariantError msg)) := by
  have hstep : ∀ key st, st.entry = none →
      (∃ msg, processOutput config sourceExports metafile key st =
        Except.error (JsError.invariantError msg)) ∨
      (∃ st2, processOutput config sourceExports metafile key st = Except.ok st2 ∧
        st2.entry = none) := by
    intro key st hse
    cases hl : lookupA metafile.outputs key with
    | none =>
      refine Or.inr ⟨st, ?_, hse⟩
      simp only [processOutput, hl]
    | some output =>
      cases ht : truthyStr output.entryPoint with
      | none =>
        refine Or.inr ⟨st, ?_, hse⟩
        simp only [processOutput, hl, ht]
      | some ep =>
        have hne : ¬ (pathResolve ep = config.entryClientFilePath) := by
          have hx := hnoentry (key, output) (lookupA_mem _ _ _ hl)
          rw [ht] at hx
          simp only [Option.map] at hx
          intro hy
          exact hx (by rw [hy])
        by_cases hbr : jsStartsWith ep "browser-route-module:" = true
        · cases hg : lookupA (routesByFile config) (stripRouteModuleMarkers ep) with
          | none =>
            refine Or.inl ⟨"Cannot get route(s) for entry point " ++ ep, ?_⟩
            simp only [processOutput, hl, ht, if_neg hne, if_pos hbr, hg]
          | some groupedRoute =>
            refine Or.inr
              (let newRoutes : RoutesList := groupedRoute.foldl
                (fun rs route =>
                  objSet rs route.id
                    { id := route.id, parentId := route.parentId, path := route.path,
                      index := route.index, caseSensitive := route.caseSensitive,
                      module := resolveUrl config key,
                      imports := some (resolveImports config output.imports),
                      hasAction := (sourceExports route.id).contains "action",
                      hasLoader := (sourceExports route.id).contains "loader",
                      hasCatchBoundary := (sourceExports route.id).contains "CatchBoundary",
                      hasErrorBoundary := (sourceExports route.id).contains "ErrorBoundary" })
                st.routes
              ⟨{ st with routes := newRoutes }, ?_, hse⟩)
            simp only [processOutput, hl, ht, if_neg hne, if_pos hbr, hg]
        · refine Or.inr ⟨st, ?_, hse⟩
          simp only [processOutput, hl, ht, if_neg hne, if_neg hbr]
  have hloop : ∀ ks st, st.entry = none →
      (∃ msg, buildLoop config sourceExports metafile ks st =
        Except.error (JsError.invariantError msg)) ∨
      (∃ st2, buildLoop config sourceExports metafile ks st = Except.ok st2 ∧
        st2.entry = none) := by
    intro ks
    induction ks with
    | nil => intro st hse; exact Or.inr ⟨st, rfl, hse⟩
    | cons key ks ihks =>
      intro st hse
      rcases hstep key st hse with ⟨msg, hmsg⟩ | ⟨st2, hok, hse2⟩
      · refine Or.inl ⟨msg, ?_⟩
        simp only [buildLoop, hmsg]
      · rcases ihks st2 hse2 with ⟨msg, hmsg⟩ | ⟨st3, hok3, hse3⟩
        · refine Or.inl ⟨msg, ?_⟩
          simp only [buildLoop, hok, hmsg]
        · refine Or.inr ⟨st3, ?_, hse3⟩
          simp only [buildLoop, hok, hok3]
  rcases hloop (sortedOutputKeys metafile) ⟨none, []⟩ rfl with ⟨msg, hmsg⟩ | ⟨st2, hok, hse2⟩
  · refine ⟨msg, ?_, ?_⟩
    · simp only [create, hmsg]
    · simp only [createThenWrite, create, hmsg]
  · refine ⟨"Missing output for entry point", ?_, ?_⟩
    · simp only [create, hok, hse2]
    · simp only [createThenWrite, create, hok, hse2]

theorem hexChar_toUpper_mem (x : Nat) (hx : x < 16) :
    Char.toUpper (hexChar x) ∈ ("0123456789ABCDEF").data := by
  interval_cases x <;> decide

/-- C7: `write` emits `manifest-<VERSION>.js` (VERSION being the manifest's
version rendered uppercase) into the assets build directory, containing the
single statement assigning the serialized manifest to
`window.__remixManifest`, stamps the manifest's `url` accordingly, and the
version is an 8-character prefix drawn from hexadecimal digits. -/
theorem write_output_format (fuel : Nat) (config : RemixConfig) (metafile : Metafile)
    (cssBundleHref : Option String) (hmr : Option Hmr)
    (sourceExports : String → List String) (m : AssetsManifest)
    (h : create fuel config metafile cssBundleHref hmr sourceExports = some (Except.ok m)) :
    (write config m).1.path =
      pathJoin config.assetsBuildDirectory ("manifest-" ++ strToUpper m.version ++ ".js") ∧
    (write config m).1.contents =
      "window.__remixManifest=" ++ jsonAssetsManifest (write config m).2 ++ ";" ∧
    (write config m).2.url =
      some (config.publicPath ++ ("manifest-" ++ strToUpper m.version ++ ".js")) ∧
    m.version.data.length = 8 ∧
    (∀ c ∈ (strToUpper m.version).data, c ∈ ("0123456789ABCDEF").data) := by
  have hver : ∃ s, m.version = strSlice (getHash s) 0 8 := by
    simp only [create] at h
    cases hbl : buildLoop config sourceExports metafile (sortedOutputKeys metafile) ⟨none, []⟩ with
    | error e => simp [hbl] at h
    | ok st =>
      simp only [hbl] at h
      cases hentry : st.entry with
      | none => simp [hentry] at h
      | some entry =>
        simp only [hentry] at h
        cases hopt : optimizeRoutes fuel st.routes entry.imports with
        | none => simp [hopt] at h
        | some res =>
          simp only [hopt] at h
          cases res with
          | error e => simp at h
          | ok routes =>
            simp only [Option.some.injEq, Except.ok.injEq] at h
            exact ⟨jsonFingerprinted entry routes cssBundleHref, by rw [← h]⟩
  obtain ⟨s, hs⟩ := hver
  refine ⟨rfl, rfl, rfl, ?_, ?_⟩
  · rw [hs]
    simp [strSlice, getHash]
  · intro c hc
    rw [show (strToUpper m.version).data = m.version.data.map Char.toUpper from rfl] at hc
    rw [List.mem_map] at hc
    obtain ⟨c0, hc0, rfl⟩ := hc
    rw [hs] at hc0
    simp only [strSlice, getHash] at hc0
    have hc1 := List.mem_of_mem_drop (List.mem_of_mem_take hc0)
    rw [List.mem_map] at hc1
    obtain ⟨i, _, rfl⟩ := hc1
    exact hexChar_toUpper_mem _ (Nat.mod_lt _ (by norm_num))

/-- C9: with a fresh empty cache, `optimizeRouteImports` terminates on every
route id precisely when no `parentId` chain revisits a route, and on a route
lying on a cycle the recursion diverges for every amount of fuel. -/
theorem optimizer_termination_iff_acyclic (routes : RoutesList) (entryImports : List String) :
    ((∀ k ∈ routes.map (fun kv => kv.1),
        ∃ fuel, (optimizeRouteImports fuel k ⟨routes, []⟩ entryImports).isSome = true) ↔
      (∀ k n, parIter routes (n + 1) k ≠ some k)) ∧
    (∀ k n, parIter routes (n + 1) k = some k →
      ∀ fuel, optimizeRouteImports fuel k ⟨routes, []⟩ entryImports = none) := by
  have hdiv : ∀ k n, parIter routes (n + 1) k = some k →
      ∀ fuel, optimizeRouteImports fuel k ⟨routes, []⟩ entryImports = none :=
    fun k n hcyc fuel => opt_diverges_cycle routes entryImports k n hcyc fuel
  refine ⟨⟨?_, ?_⟩, hdiv⟩
  · intro hterm k n hcyc
    have hk : k ∈ routes.map (fun kv => kv.1) := by
      have h2 : (parIter routes 1 k).bind (parIter routes n) = some k := by
        rw [← parIter_add, show 1 + n = n + 1 by omega]
        exact hcyc
      cases hps : parIter routes 1 k with
      | none => rw [hps] at h2; simp at h2
      | some v =>
        have hps2 : parStep routes k = some v := by
          rw [parIter_succ] at hps
          exact hps
        revert hps2
        rw [parStep]
        cases hl : lookupA routes k with
        | none => intro hx; simp at hx
        | some r => intro _; exact mem_keys_of_lookupA hl
    obtain ⟨fuel, hfuel⟩ := hterm k hk
    rw [hdiv k n hcyc fuel] at hfuel
    simp at hfuel
  · intro hac k hk
    obtain ⟨m, hm⟩ := chain_of_acyclic routes hac k
    exact ⟨m, term_of_chain entryImports m m k ⟨routes, []⟩ hm (Nat.le_refl m)⟩

/-- C10: when every truthy `parentId` in the routes map refers to a present
route, `optimizeRoutes` can never throw: the undefined-route lookup inside
`optimizeRouteImports` is unreachable for every processed route id. -/
theorem parent_lookup_safe (routes : RoutesList) (entryImports : List String)
    (hwf : ∀ kv ∈ routes,
      ((truthyStr kv.2.parentId).map (fun p => (lookupA routes p).isSome)).getD true = true) :
    ∀ fuel e, optimizeRoutes fuel routes entryImports ≠ some (Except.error e) := by
  have hwf2 : ∀ kv ∈ routes, ∀ p, truthyStr kv.2.parentId = some p →
      (lookupA routes p).isSome = true := by
    intro kv hkv p hp
    have := hwf kv hkv
    rw [hp] at this
    simpa using this
  intro fuel e h
  simp only [optimizeRoutes] at h
  cases haux : optimizeRoutesAux fuel entryImports
      (routes.map (fun kv => kv.1)) ⟨routes, []⟩ with
  | none => simp [haux] at h
  | some res =>
    simp only [haux] at h
    cases res with
    | error e2 =>
      exact absurd haux
        (optNoerrAux routes entryImports hwf2 fuel _ _ (optInv_init routes entryImports)
          (fun k hk => lookupA_isSome_of_mem_keys hk) e2)
    | ok stf => simp at h

/-- C1 counterexample: on the three-level chain the leaf route keeps `X` in
its pruned imports although `X` occurs in the raw import list of its
grandparent `gp`, an ancestor two `parentId` steps away. -/
theorem coverage_law_counterexample :
    optimizeRoutes 3 cRoutes cEntryImports = some (Except.ok cRoutesOpt) ∧
    parIter cRoutes 2 "r" = some "gp" ∧
    "X" ∈ ((lookupA cRoutesOpt "r").map (fun r => r.imports.getD [])).getD [] ∧
    "X" ∈ ((lookupA cRoutes "gp").map (fun r => r.imports.getD [])).getD [] :=
  ⟨by decide, by decide, by decide, by decide⟩

theorem coverage_law_amended_witness :
    optimizeRoutes 2 exRoutes exEntryImports = some (Except.ok exRoutesOpt) ∧
    (∀ r1, lookupA exRoutesOpt "child" = some r1 →
      ∀ url ∈ r1.imports.getD [],
        url ∉ exEntryImports ∧
        ∀ p rp1, truthyStr exChildRoute.parentId = some p →
          lookupA exRoutesOpt p = some rp1 → url ∉ rp1.imports.getD []) :=
  ⟨by decide, coverage_law_amended exRoutes exEntryImports 2 exRoutesOpt "child" exChildRoute
    (by decide) (by decide)⟩

/-- C2 counterexample: with entry imports `[E]` and a route with empty raw
imports, the union of pruned imports and entry imports contains `E` while the
route's raw import list does not, so the claimed set equality fails. -/
theorem no_loss_equality_counterexample :
    optimizeRoutes 1 nRoutes ["E"] =
      some (Except.ok [("a", { nRoute with imports := none })]) ∧
    "E" ∈ (["E"] : List String) ∧
    "E" ∉ ((lookupA nRoutes "a").map (fun r => r.imports.getD [])).getD [] :=
  ⟨by decide, by decide, by decide⟩

theorem no_loss_superset_witness :
    optimizeRoutes 2 exRoutes exEntryImports = some (Except.ok exRoutesOpt) ∧
    (∀ url ∈ exChildRoute.imports.getD [],
      url ∈ exEntryImports ∨ ∃ n, url ∈ ancUnion exRoutesOpt n "child") :=
  ⟨by decide, no_loss_superset exRoutes exEntryImports 2 exRoutesOpt "child" exChildRoute
    (by decide) (by decide)⟩

theorem optimize_idempotent_witness :
    optimizeRoutes 2 exRoutesOpt exEntryImports = some (Except.ok exRoutesOpt) ∧
    lookupA exRoutesOpt "child" = lookupA exRoutesOpt "child" :=
  ⟨by decide, optimize_idempotent exRoutes exEntryImports 2 2 exRoutesOpt exRoutesOpt
    (by decide) (by decide) "child"⟩

theorem version_deterministic_witness :
    exManifest.version = exManifestHmr.version ∧
    (write exConfig exManifest).2.version = exManifest.version :=
  version_deterministic 2 exConfig exMetafile none none (some { runtime := "hmr-runtime.js" })
    exSourceExports exManifest exManifestHmr (by rfl) (by rfl)

theorem empty_imports_omitted_witness :
    optimizeRoutes 1 eRoutes ["A"] = some (Except.ok eRoutesOpt) ∧
    ∃ r1, lookupA eRoutesOpt "q" = some r1 ∧ r1.imports = none :=
  ⟨by decide, empty_imports_omitted eRoutes ["A"] 1 eRoutesOpt "q" eRoute
    (by decide) (by decide) (by decide)⟩

theorem missing_entry_fatal_witness :
    (∀ kv ∈ exMetafileNoEntry.outputs,
      ((truthyStr kv.2.entryPoint).map pathResolve) ≠ some exConfig.entryClientFilePath) ∧
    ∃ msg, create 1 exConfig exMetafileNoEntry none none exSourceExports =
        some (Except.error (JsError.invariantError msg)) ∧
      createThenWrite 1 exConfig exMetafileNoEntry none none exSourceExports =
        some (Except.error (JsError.invariantError msg)) :=
  ⟨by decide, missing_entry_fatal 1 exConfig exMetafileNoEntry none none exSourceExports
    (by decide)⟩

theorem write_output_format_witness :
    (write exConfig exManifest).1.path =
      pathJoin exConfig.assetsBuildDirectory
        ("manifest-" ++ strToUpper exManifest.version ++ ".js") ∧
    (write exConfig exManifest).1.contents =
      "window.__remixManifest=" ++ jsonAssetsManifest (write exConfig exManifest).2 ++ ";" ∧
    (write exConfig exManifest).2.url =
      some (exConfig.publicPath ++ ("manifest-" ++ strToUpper exManifest.version ++ ".js")) ∧
    exManifest.version.data.length = 8 ∧
    (∀ c ∈ (strToUpper exManifest.version).data, c ∈ ("0123456789ABCDEF").data) :=
  write_output_format 2 exConfig exMetafile none none exSourceExports exManifest (by rfl)

theorem optimizer_order_preserving_witness :
    optimizeRoutes 2 exRoutes exEntryImports = some (Except.ok exRoutesOpt) ∧
    ∃ r1, lookupA exRoutesOpt "child" = some r1 ∧
      List.Sublist (r1.imports.getD []) (exChildRoute.imports.getD []) :=
  ⟨by decide, optimizer_order_preserving exRoutes exEntryImports 2 exRoutesOpt "child"
    exChildRoute (by decide) (by decide)⟩

theorem optimizer_termination_iff_acyclic_witness :
    optimizeRouteImports 5 "s" ⟨loopRoutes, []⟩ [] = none :=
  (optimizer_termination_iff_acyclic loopRoutes []).2 "s" 0 (by decide) 5

theorem parent_lookup_safe_witness :
    (∀ kv ∈ exRoutes,
      ((truthyStr kv.2.parentId).map (fun p => (lookupA exRoutes p).isSome)).getD true = true) ∧
    optimizeRoutes 2 exRoutes exEntryImports ≠ some (Except.error (JsError.typeError "boom")) :=
  ⟨by decide, parent_lookup_safe exRoutes exEntryImports (by decide) 2 (JsError.typeError "boom")⟩

end Remix
